import Mathlib

/-!
Shallow embedding of the sentence-generation and annotation-selection core of
the gene descriptions pipeline, together with proofs about its behavior.

The embedded code comes from three modules:
- genedescriptions/sentence_generation_functions.py
- wormbase/wb_data_manager.py
- data_fetcher.py

Modeling conventions:
- Python strings are Lean strings; all operations on them are performed through
  the character list (String.data), which matches Python code-point semantics.
- Python sorted(...) is a stable sort; it is modeled by List.insertionSort over
  the corresponding total preorder, which is also stable.
- Python dicts are modeled as partial maps (Option-valued functions) or as
  insertion-ordered association lists where key order is observable.
- Python sets are modeled as duplicate-free lists; only order-insensitive facts
  (membership, emptiness, size) are proved about them.
- Runtime errors (TypeError for operations on None, KeyError for missing dict
  keys) are modeled with Except.
-/

set_option linter.unusedVariables false

namespace GeneDesc

/-- Python string comparison is code-point lexicographic; on Lean strings that
is exactly the lexicographic order of the character lists. -/
def strLe (a b : String) : Prop := ¬ b.data < a.data

instance : DecidableRel strLe := fun a b => by unfold strLe; infer_instance

theorem strLe_iff (a b : String) : strLe a b ↔ a.data ≤ b.data := not_lt

theorem strLe_total (a b : String) : strLe a b ∨ strLe b a := by
  rw [strLe_iff, strLe_iff]
  exact le_total _ _

theorem strLe_trans {a b c : String} (h1 : strLe a b) (h2 : strLe b c) : strLe a c := by
  rw [strLe_iff] at h1 h2 ⊢
  exact le_trans h1 h2

/-- Python sorted(xs) on a list of strings: stable ascending sort. -/
def pySortedStr (l : List String) : List String := List.insertionSort strLe l

/-- Python slice s[0:-3]: drop the last three characters (result is empty when
the string has at most three characters). -/
def strDropRight3 (s : String) : String := ⟨s.data.dropLast.dropLast.dropLast⟩

/-- concatenate_words_with_oxford_comma from sentence_generation_functions.py:
", ".join(words[0:-1]) + ", and " + words[-1] when more than two words,
" and ".join(words) otherwise. -/
def concatenate_words_with_oxford_comma (words : List String) : String :=
  if words.length > 2 then
    String.intercalate ", " words.dropLast ++ ", and " ++ words.getLastD ""
  else
    String.intercalate " and " words

/-- Python-level runtime errors surfaced by the embedded functions. -/
inductive PyErr where
  | typeErr : PyErr
  | keyErr : String × String × String → PyErr
deriving DecidableEq

instance {ε α : Type} [DecidableEq ε] [DecidableEq α] : DecidableEq (Except ε α) := fun a b =>
  match a, b with
  | .ok x, .ok y => if h : x = y then .isTrue (by rw [h]) else .isFalse (by simp [h])
  | .error x, .error y => if h : x = y then .isTrue (by rw [h]) else .isFalse (by simp [h])
  | .ok _, .error _ => .isFalse (by simp)
  | .error _, .ok _ => .isFalse (by simp)

/-- compose_sentence from sentence_generation_functions.py.

The source declares ancestors_with_multiple_children with default None and
immediately membership-tests every sorted term name against it; with None and a
non-empty term list the first membership test raises TypeError (with an empty
term list the comprehension performs no test and the call succeeds). The set
argument is modeled as an Option around the list of its elements. -/
def compose_sentence (pfx addl_pfx : String) (term_names : List String) (pofix : String)
    (ancestors_with_multiple_children : Option (List String)) (rename_cell : Bool) :
    Except PyErr String :=
  let pfx1 := pfx ++ addl_pfx ++ " "
  let termsE : Except PyErr (List String) :=
    match ancestors_with_multiple_children with
    | some anc =>
        .ok ((pySortedStr term_names).map (fun t => if t ∈ anc then t ++ " (multiple)" else t))
    | none => if term_names = [] then .ok [] else .error .typeErr
  match termsE with
  | .error e => .error e
  | .ok terms =>
    let pofix1 := if pofix ≠ "" then " " ++ pofix else pofix
    if rename_cell ∧ ("the cell" ∈ terms ∨ "the Cell" ∈ terms) then
      if terms.length = 1 then
        .ok (strDropRight3 pfx1 ++ concatenate_words_with_oxford_comma ["widely"] ++ pofix1)
      else
        let pfx2 := if addl_pfx = "" then pfx1 ++ "several tissues including " else pfx1
        let terms2 := terms.filter (fun t => decide (t ≠ "the cell" ∧ t ≠ "the Cell"))
        .ok (pfx2 ++ concatenate_words_with_oxford_comma terms2 ++ pofix1)
    else
      .ok (pfx1 ++ concatenate_words_with_oxford_comma terms ++ pofix1)

/-- The Sentence value object from genedescriptions.commons, restricted to the
fields populated by _get_single_sentence. -/
structure Sentence where
  pfx : String
  terms_ids : List String
  pofix : String
  text : String
  aspect : String
  evidence_group : String
  terms_merged : Bool
  addl_pfx : String
  qualifier : String
  ancestors_covering_multiple_terms : Option (List String)
deriving DecidableEq

/-- _get_single_sentence from sentence_generation_functions.py.

The ontology collaborator is modeled by its label lookup (ontology.label with
id_if_null=True falls back to the id). The template dict lookup raises KeyError
when the (aspect, evidence_group, qualifier) key is absent; the
truncate_others_aspect_words dict is membership-tested, which raises TypeError
when the argument is None. The embedding is a pure function: the empty-input
branch returns none without touching any collaborator. -/
def get_single_sentence (node_ids : List String) (label : String → Option String)
    (aspect evidence_group qualifier : String)
    (prepostfix_sentences_map : String × String × String → Option (String × String))
    (terms_merged : Bool) (add_others : Bool)
    (truncate_others_generic_word : String)
    (truncate_others_aspect_words : Option (String → Option String))
    (ancestors_with_multiple_children : Option (List String))
    (rename_cell : Bool) : Except PyErr (Option Sentence) :=
  if node_ids.length > 0 then
    match prepostfix_sentences_map (aspect, evidence_group, qualifier) with
    | none => .error (.keyErr (aspect, evidence_group, qualifier))
    | some pp =>
      match truncate_others_aspect_words with
      | none => .error .typeErr
      | some taw =>
        let others_word := match taw aspect with
          | some w => w
          | none => "entities"
        let addl_pfx1 :=
          if add_others then " " ++ truncate_others_generic_word ++ " " ++ others_word ++ ", including"
          else ""
        let addl_pfx2 := if aspect = "C" then addl_pfx1 ++ " the" else addl_pfx1
        let term_labels := node_ids.map (fun n => (label n).getD n)
        match compose_sentence pp.1 addl_pfx2 term_labels pp.2
            ancestors_with_multiple_children rename_cell with
        | .error e => .error e
        | .ok text =>
            .ok (some ⟨pp.1, node_ids, pp.2, text, aspect, evidence_group, terms_merged,
                       addl_pfx2, qualifier, ancestors_with_multiple_children⟩)
  else
    .ok none

/-- C3 counterexample input check: the rename branch drops three characters of
the full prefix, not one. -/
theorem compose_sentence_c3_cex :
    compose_sentence "is expressed in" "" ["the cell"] "" (some []) true =
      .ok "is expressed widely" ∧
    "is expressed widely" ≠ "is expressed in" ++ "" ++ "widely" ++ "" := by
  constructor
  · decide
  · decide

/-- C3 (amended): for every prefix, additional prefix and postfix, when
rename_cell is true and "the cell" or "the Cell" is the only term name (and is
not in the ancestors set), compose_sentence drops the last THREE characters of
full_prefix = prefix + additional_prefix + " " and replaces the term list with
the single word "widely", so the result is
(prefix + additional_prefix + " ")[0:-3] + "widely" + postfix (with the postfix
space rule applied), and the rendered term list is the bare word "widely" with
no comma artifacts. -/
theorem compose_sentence_rename_single (pfx addl_pfx pofix : String)
    (anc : List String) (cell : String)
    (hcell : cell = "the cell" ∨ cell = "the Cell") (hanc : cell ∉ anc) :
    compose_sentence pfx addl_pfx [cell] pofix (some anc) true =
      .ok (strDropRight3 (pfx ++ addl_pfx ++ " ") ++ "widely" ++
           (if pofix ≠ "" then " " ++ pofix else pofix)) := by
  have hsort : pySortedStr [cell] = [cell] := rfl
  have hmem : ("the cell" ∈ [cell] ∨ "the Cell" ∈ [cell]) := by
    rcases hcell with h | h
    · exact Or.inl (by simp [h])
    · exact Or.inr (by simp [h])
  have hox : concatenate_words_with_oxford_comma ["widely"] = "widely" := rfl
  simp only [compose_sentence, hsort, List.map_cons, List.map_nil, if_neg hanc]
  rw [if_pos ⟨by trivial, hmem⟩, if_pos (show [cell].length = 1 from rfl), hox]

theorem compose_sentence_rename_single_witness :
    (("the cell" : String) = "the cell" ∨ ("the cell" : String) = "the Cell") ∧
    ("the cell" ∉ ([] : List String)) ∧
    compose_sentence "is expressed in" "" ["the cell"] "elsewhere" (some []) true =
      .ok (strDropRight3 ("is expressed in" ++ "" ++ " ") ++ "widely" ++
           (if ("elsewhere" : String) ≠ "" then " " ++ "elsewhere" else "elsewhere")) :=
  ⟨Or.inl rfl, by decide,
   compose_sentence_rename_single "is expressed in" "" "elsewhere" [] "the cell"
     (Or.inl rfl) (by decide)⟩

/-- C10: calling compose_sentence with ancestors_with_multiple_children = None
and a non-empty term list always raises TypeError before producing any text
(each sorted term name is membership-tested against None), and with any
non-None set the function always returns a string; a non-None set is therefore
an effective precondition for non-empty inputs. -/
theorem compose_sentence_none_ancestors (pfx addl_pfx : String) (term_names : List String)
    (pofix : String) (rename_cell : Bool) (hne : term_names ≠ []) :
    compose_sentence pfx addl_pfx term_names pofix none rename_cell = .error .typeErr ∧
    ∀ anc : List String, ∃ s : String,
      compose_sentence pfx addl_pfx term_names pofix (some anc) rename_cell = .ok s := by
  constructor
  · simp [compose_sentence, hne]
  · intro anc
    unfold compose_sentence
    dsimp only
    split
    · split
      · exact ⟨_, rfl⟩
      · exact ⟨_, rfl⟩
    · exact ⟨_, rfl⟩

theorem compose_sentence_none_ancestors_witness :
    (["membrane"] : List String) ≠ [] ∧
    compose_sentence "is located in" "" ["membrane"] "" none false = .error .typeErr :=
  ⟨by decide,
   (compose_sentence_none_ancestors "is located in" "" ["membrane"] "" false (by decide)).1⟩

/-- C8: the sentence builder returns none for an empty term-id list (the
embedding is pure, so no side effects occur), and for a non-empty term-id list
with no template entry for the (aspect, evidence_group, qualifier) triple it
raises KeyError and never returns a sentence. -/
theorem get_single_sentence_template (node_ids : List String) (label : String → Option String)
    (aspect evidence_group qualifier : String)
    (pmap : String × String × String → Option (String × String))
    (terms_merged add_others : Bool) (tw : String)
    (taw : Option (String → Option String)) (anc : Option (List String)) (rc : Bool) :
    (node_ids = [] →
      get_single_sentence node_ids label aspect evidence_group qualifier pmap
        terms_merged add_others tw taw anc rc = .ok none) ∧
    (node_ids ≠ [] → pmap (aspect, evidence_group, qualifier) = none →
      get_single_sentence node_ids label aspect evidence_group qualifier pmap
        terms_merged add_others tw taw anc rc =
        .error (.keyErr (aspect, evidence_group, qualifier))) := by
  constructor
  · intro h
    simp [get_single_sentence, h]
  · intro hne hmap
    have hlen : node_ids.length > 0 := by
      cases node_ids with
      | nil => exact absurd rfl hne
      | cons a l => simp
    simp [get_single_sentence, hlen, hmap]

theorem get_single_sentence_template_witness :
    get_single_sentence [] (fun _ => none) "F" "EXPERIMENTAL" "" (fun _ => none)
      false false "several" (some (fun _ => none)) (some []) false = .ok none ∧
    get_single_sentence ["GO:1"] (fun _ => none) "F" "EXPERIMENTAL" "" (fun _ => none)
      false false "several" (some (fun _ => none)) (some []) false =
      .error (.keyErr ("F", "EXPERIMENTAL", "")) :=
  ⟨(get_single_sentence_template [] (fun _ => none) "F" "EXPERIMENTAL" "" (fun _ => none)
      false false "several" (some (fun _ => none)) (some []) false).1 rfl,
   (get_single_sentence_template ["GO:1"] (fun _ => none) "F" "EXPERIMENTAL" "" (fun _ => none)
      false false "several" (some (fun _ => none)) (some []) false).2 (by decide) rfl⟩

/-! ### generate_orthology_sentence_alliance_human (flat Alliance human policy) -/

/-- Ortholog record for the Alliance human policy: the source passes lists
containing gene_id, gene_symbol and gene_name at indices 0, 1 and 2. -/
structure AllianceOrtholog where
  gene_id : String
  gene_symbol : String
  gene_name : String
deriving DecidableEq

/-- Rendering of one ortholog in the flat policy:
orth[1] + " (" + orth[2] + ")" if orth[2] else orth[1]
(Python truthiness: the empty name string is falsy). -/
def alliance_display (o : AllianceOrtholog) : String :=
  if o.gene_name ≠ "" then o.gene_symbol ++ " (" ++ o.gene_name ++ ")" else o.gene_symbol

/-- sorted(orthologs, key=lambda x: x[2]): stable ascending sort by gene_name. -/
def alliance_sorted (orthologs : List AllianceOrtholog) : List AllianceOrtholog :=
  List.insertionSort (fun a b => strLe a.gene_name b.gene_name) orthologs

/-- generate_orthology_sentence_alliance_human from
sentence_generation_functions.py. -/
def generate_orthology_sentence_alliance_human (orthologs : List AllianceOrtholog)
    (excluded_orthologs : Bool) : Option String :=
  if orthologs.length > 0 then
    let pd : String × List AllianceOrtholog :=
      if excluded_orthologs ∨ orthologs.length > 3 then
        ("several human genes including", (alliance_sorted orthologs).take 3)
      else
        ("human", alliance_sorted orthologs)
    some ("orthologous to " ++ pd.1 ++ " " ++
          concatenate_words_with_oxford_comma (pd.2.map alliance_display))
  else
    none

theorem alliance_sorted_perm (orthologs : List AllianceOrtholog) :
    (alliance_sorted orthologs).Perm orthologs :=
  List.perm_insertionSort _ orthologs

theorem alliance_sorted_sorted (orthologs : List AllianceOrtholog) :
    (alliance_sorted orthologs).Pairwise (fun a b => strLe a.gene_name b.gene_name) :=
  @List.sorted_insertionSort AllianceOrtholog (fun a b => strLe a.gene_name b.gene_name) _
    ⟨fun _ _ => strLe_total _ _⟩ ⟨fun _ _ _ h1 h2 => strLe_trans h1 h2⟩ orthologs

/-- C7: the flat (Alliance human) ortholog policy returns none exactly for an
empty ortholog list; for a non-empty list it stably sorts by the display-name
field (the sorted list is a permutation of the input, pairwise ascending by
gene_name); exactly when excluded_orthologs is true or the list has more than 3
members it keeps only the first 3 sorted entries and uses the prefix
"several human genes including" (exactly 3 items when the input has more than
3), otherwise it lists all orthologs with the prefix "human"; the result always
is "orthologous to " + prefix + the oxford-comma list of "symbol (name)"
renderings (bare symbol when the name is empty). -/
theorem alliance_human_policy (orthologs : List AllianceOrtholog) (excluded : Bool) :
    (generate_orthology_sentence_alliance_human orthologs excluded = none ↔ orthologs = []) ∧
    (alliance_sorted orthologs).Perm orthologs ∧
    (alliance_sorted orthologs).Pairwise (fun a b => strLe a.gene_name b.gene_name) ∧
    ((excluded = true ∨ orthologs.length > 3) → orthologs ≠ [] →
      generate_orthology_sentence_alliance_human orthologs excluded =
        some ("orthologous to " ++ "several human genes including" ++ " " ++
          concatenate_words_with_oxford_comma
            (((alliance_sorted orthologs).take 3).map alliance_display))) ∧
    (excluded = false → orthologs.length ≤ 3 → orthologs ≠ [] →
      generate_orthology_sentence_alliance_human orthologs excluded =
        some ("orthologous to " ++ "human" ++ " " ++
          concatenate_words_with_oxford_comma
            ((alliance_sorted orthologs).map alliance_display))) ∧
    (orthologs.length > 3 → ((alliance_sorted orthologs).take 3).length = 3) := by
  have hlen0 : orthologs = [] ↔ ¬ orthologs.length > 0 := by
    cases orthologs <;> simp
  refine ⟨?_, alliance_sorted_perm orthologs, alliance_sorted_sorted orthologs, ?_, ?_, ?_⟩
  · unfold generate_orthology_sentence_alliance_human
    constructor
    · intro h
      by_contra hne
      have hpos : orthologs.length > 0 := by
        cases orthologs with
        | nil => exact absurd rfl hne
        | cons a l => simp
      rw [if_pos hpos] at h
      exact Option.noConfusion h
    · intro h
      subst h
      rfl
  · intro hcond hne
    have hpos : orthologs.length > 0 := by
      cases orthologs with
      | nil => exact absurd rfl hne
      | cons a l => simp
    have hcond2 : (excluded = true ∨ orthologs.length > 3) := hcond
    unfold generate_orthology_sentence_alliance_human
    rw [if_pos hpos, if_pos hcond2]
  · intro hexc hle hne
    have hpos : orthologs.length > 0 := by
      cases orthologs with
      | nil => exact absurd rfl hne
      | cons a l => simp
    have hcond : ¬ (excluded = true ∨ orthologs.length > 3) := by
      rw [hexc]
      simp
      omega
    unfold generate_orthology_sentence_alliance_human
    rw [if_pos hpos, if_neg hcond]
  · intro hgt
    have hperm := (alliance_sorted_perm orthologs).length_eq
    rw [List.length_take]
    omega

theorem alliance_human_policy_witness :
    generate_orthology_sentence_alliance_human
      [⟨"1", "S4", "d"⟩, ⟨"2", "S1", "a"⟩, ⟨"3", "S2", "b"⟩, ⟨"4", "S3", "c"⟩] false =
      some "orthologous to several human genes including S1 (a), S2 (b), and S3 (c)" := by
  have h := (alliance_human_policy
      [⟨"1", "S4", "d"⟩, ⟨"2", "S1", "a"⟩, ⟨"3", "S2", "b"⟩, ⟨"4", "S3", "c"⟩]
      false).2.2.2.1 (Or.inr (by decide)) (by decide)
  rw [h]
  decide

/-! ### generate_ortholog_sentence_wormbase_human (family-grouped policy) -/

/-- Python set.add, on the model of a set as the duplicate-free list of its
elements in insertion order. Only order-insensitive facts (membership,
emptiness) are proved about values built with it. -/
def setAdd (l : List String) (x : String) : List String :=
  if x ∈ l then l else l ++ [x]

/-- Python set.update: add every element in turn. -/
def setUpdate (l : List String) (xs : List String) : List String := xs.foldl setAdd l

theorem mem_setAdd (l : List String) (x y : String) : y ∈ setAdd l x ↔ y ∈ l ∨ y = x := by
  unfold setAdd
  split
  · rename_i h
    constructor
    · exact fun hy => Or.inl hy
    · rintro (hy | rfl)
      · exact hy
      · exact h
  · simp

theorem mem_setUpdate (xs : List String) : ∀ (l : List String) (y : String),
    y ∈ setUpdate l xs ↔ y ∈ l ∨ y ∈ xs := by
  induction xs with
  | nil => intro l y; simp [setUpdate]
  | cons x xs ih =>
      intro l y
      show y ∈ setUpdate (setAdd l x) xs ↔ _
      rw [ih, mem_setAdd]
      constructor
      · rintro ((h | rfl) | h)
        · exact Or.inl h
        · exact Or.inr (List.mem_cons_self _ _)
        · exact Or.inr (List.mem_cons_of_mem _ h)
      · rintro (h | h)
        · exact Or.inl (Or.inl h)
        · rcases List.mem_cons.mp h with rfl | h2
          · exact Or.inl (Or.inr rfl)
          · exact Or.inr h2

/-- defaultdict(list) append: add a value under a key, preserving Python dict
key insertion order; the value list of an existing key grows at its end. -/
def dictAppend {β : Type} (m : List (String × List β)) (k : String) (v : β) :
    List (String × List β) :=
  match m with
  | [] => [(k, [v])]
  | (k0, vs) :: rest => if k0 = k then (k0, vs ++ [v]) :: rest else (k0, vs) :: dictAppend rest k v

theorem dictAppend_fst {β : Type} (m : List (String × List β)) (k : String) (v : β) :
    (dictAppend m k v).map Prod.fst =
      if k ∈ m.map Prod.fst then m.map Prod.fst else m.map Prod.fst ++ [k] := by
  induction m with
  | nil => simp [dictAppend]
  | cons p rest ih =>
      obtain ⟨k0, vs⟩ := p
      by_cases hk : k0 = k
      · subst hk
        simp [dictAppend]
      · simp only [dictAppend, if_neg hk, List.map_cons, ih]
        have : (k ∈ k0 :: rest.map Prod.fst) ↔ k ∈ rest.map Prod.fst := by
          simp [List.mem_cons]
          intro h
          exact absurd h.symm hk
        by_cases hmem : k ∈ rest.map Prod.fst
        · simp [hmem, this]
        · simp [hmem, this]

theorem dictAppend_members {β : Type} (m : List (String × List β)) (k : String)
    (v : β) (x : β) :
    (x ∈ ((dictAppend m k v).map Prod.snd).flatten ↔ x ∈ (m.map Prod.snd).flatten ∨ x = v) := by
  induction m with
  | nil => simp [dictAppend]
  | cons p rest ih =>
      obtain ⟨k0, vs⟩ := p
      by_cases hk : k0 = k
      · subst hk
        have hd : dictAppend ((k0, vs) :: rest) k0 v = (k0, vs ++ [v]) :: rest := by
          simp [dictAppend]
        rw [hd]
        simp only [List.map_cons, List.flatten_cons, List.mem_append, List.mem_singleton]
        tauto
      · have hd : dictAppend ((k0, vs) :: rest) k v = (k0, vs) :: dictAppend rest k v := by
          simp [dictAppend, hk]
        rw [hd]
        simp only [List.map_cons, List.flatten_cons, List.mem_append]
        rw [ih]
        tauto

/-- The completeness test applied to each ortholog in the >3 branch:
ortholog[0] in human_genes_props and human_genes_props[ortholog[0]] and
len(human_genes_props[ortholog[0]]) == 4. A 4-element list is truthy, so the
test is equivalent to the props lookup yielding a list of length 4. -/
def complete_props (props : String → Option (List String)) (gid : String) :
    Option (List String) :=
  match props gid with
  | some l => if l.length = 4 then some l else none
  | none => none

/-- Rendering human_p[0] + " (" + human_p[1] + ")". -/
def render_symbol_name (l : List String) : String :=
  l.getD 0 "" ++ " (" ++ l.getD 1 "" ++ ")"

/-- One iteration of the grouping loop in the >3 branch of
generate_ortholog_sentence_wormbase_human: an ortholog with complete props is
grouped under its family symbol props[2], the others contribute their symbol
(ortholog[1]) to the no-family set. -/
def wb_human_step (props : String → Option (List String))
    (acc : List (String × List (List String)) × List String) (o : String × String) :
    List (String × List (List String)) × List String :=
  match complete_props props o.1 with
  | some l => (dictAppend acc.1 (l.getD 2 "") l, acc.2)
  | none => (acc.1, setAdd acc.2 o.2)

/-- The grouping pass of generate_ortholog_sentence_wormbase_human (>3 branch):
builds the insertion-ordered family dict and the no-family set. -/
def wb_human_initial (props : String → Option (List String))
    (orthologs : List (String × String)) :
    List (String × List (List String)) × List String :=
  orthologs.foldl (wb_human_step props) ([], [])

/-- The dissolution / reclassification step of the >3 branch. The source checks
the single-family condition FIRST, on the initial partition; only in the else
branch are singleton families and families with an empty name reclassified into
the no-family set, after which the surviving families are NOT re-checked for
being a single remaining family. -/
def wb_human_resolve (fams : List (String × List (List String))) (wo : List String) :
    List (String × List (List String)) × List String :=
  if fams.length = 1 then
    ([], setUpdate wo ((fams.headD ("", [])).2.map render_symbol_name))
  else
    let wo2 := fams.foldl
      (fun acc fp =>
        if fp.1 = "" ∨ fp.2.length = 1 then setUpdate acc (fp.2.map render_symbol_name)
        else acc)
      wo
    (fams.filter (fun fp => decide (fp.2.length > 1 ∧ fp.1 ≠ "")), wo2)

/-- Python s.split(" ")[0]: the characters before the first space. -/
def firstWord (s : String) : String := ⟨s.data.takeWhile (fun c => c ≠ ' ')⟩

/-- Display rule of the ≤3 branch (this one checks only presence and
truthiness of the props entry, not its length):
props[0] + " (" + props[1] + ")" if best_orth[0] in props and props[best_orth[0]]
else best_orth[1]. -/
def wb_human_le3_display (props : String → Option (List String)) (o : String × String) :
    String :=
  match props o.1 with
  | some l => if l ≠ [] then render_symbol_name l else o.2
  | none => o.2

/-- generate_ortholog_sentence_wormbase_human from
sentence_generation_functions.py; returns the pair (used gene symbols,
sentence). -/
def generate_ortholog_sentence_wormbase_human (orthologs : List (String × String))
    (props : String → Option (List String)) : List String × String :=
  if orthologs.length > 3 then
    let ip := wb_human_initial props orthologs
    let rp := wb_human_resolve ip.1 ip.2
    let gene_family_names0 := rp.1.map
      (fun fp => (fp.2.headD []).getD 2 "" ++ " (" ++ (fp.2.headD []).getD 3 "" ++ ")")
    let genes_in_families0 := setUpdate [] ((rp.1.map Prod.snd).flatten.map (fun l => l.getD 0 ""))
    let gene_family_names :=
      if gene_family_names0.length > 3 then gene_family_names0.take 3 else gene_family_names0
    let genes_in_families :=
      if genes_in_families0.length > 3 then genes_in_families0.take 3 else genes_in_families0
    let gene_symbols_wo_family := if rp.2.length > 3 then rp.2.take 3 else rp.2
    let family_word := if gene_family_names.length > 1 then "families" else "family"
    let sentences_arr :=
      (if gene_symbols_wo_family.length > 0 then
        ["human " ++ concatenate_words_with_oxford_comma gene_symbols_wo_family]
       else []) ++
      (if gene_family_names.length > 0 then
        ["members of the human " ++ concatenate_words_with_oxford_comma gene_family_names ++
         " gene " ++ family_word ++ " including " ++
         concatenate_words_with_oxford_comma genes_in_families]
       else [])
    ((genes_in_families ++ gene_symbols_wo_family).map firstWord,
     "is an ortholog of " ++ String.intercalate " and " sentences_arr)
  else
    let symbol_name_arr := pySortedStr (orthologs.map (wb_human_le3_display props))
    (symbol_name_arr.map firstWord,
     "is an ortholog of human " ++ concatenate_words_with_oxford_comma symbol_name_arr)

theorem wb_human_fold_single (props : String → Option (List String)) (fam : String) :
    ∀ (orthologs : List (String × String)) (acc : List (String × List (List String)) × List String),
    (∀ o ∈ orthologs, ∃ l, props o.1 = some l ∧ l.length = 4 ∧ l.getD 2 "" = fam) →
    (acc.1.map Prod.fst = [] ∨ acc.1.map Prod.fst = [fam]) →
    (orthologs.foldl (wb_human_step props) acc).2 = acc.2 ∧
    ((orthologs.foldl (wb_human_step props) acc).1.map Prod.fst = [] ∨
     (orthologs.foldl (wb_human_step props) acc).1.map Prod.fst = [fam]) ∧
    (orthologs ≠ [] → (orthologs.foldl (wb_human_step props) acc).1.map Prod.fst = [fam]) ∧
    (acc.1.map Prod.fst = [fam] →
      (orthologs.foldl (wb_human_step props) acc).1.map Prod.fst = [fam]) ∧
    (∀ x, x ∈ (((orthologs.foldl (wb_human_step props) acc).1.map Prod.snd).flatten) ↔
       x ∈ ((acc.1.map Prod.snd).flatten) ∨ ∃ o ∈ orthologs, props o.1 = some x) := by
  intro orthologs
  induction orthologs with
  | nil =>
      intro acc hall hacc
      refine ⟨rfl, hacc, fun h => absurd rfl h, fun h => h, ?_⟩
      intro x
      simp
  | cons o os ih =>
      intro acc hall hacc
      obtain ⟨l, hl, hlen, hfam⟩ := hall o (List.mem_cons_self _ _)
      have hcp : complete_props props o.1 = some l := by
        unfold complete_props
        rw [hl]
        simp [hlen]
      have hstep : wb_human_step props acc o = (dictAppend acc.1 fam l, acc.2) := by
        unfold wb_human_step
        rw [hcp]
        dsimp only
        rw [hfam]
      have hkeys2 : (dictAppend acc.1 fam l).map Prod.fst = [fam] := by
        rw [dictAppend_fst]
        rcases hacc with h | h
        · rw [h]; simp
        · rw [h]; simp
      have hall2 : ∀ o2 ∈ os, ∃ l2, props o2.1 = some l2 ∧ l2.length = 4 ∧ l2.getD 2 "" = fam :=
        fun o2 ho2 => hall o2 (List.mem_cons_of_mem _ ho2)
      have ihx := ih (dictAppend acc.1 fam l, acc.2) hall2 (Or.inr hkeys2)
      have hfold : (o :: os).foldl (wb_human_step props) acc =
          os.foldl (wb_human_step props) (dictAppend acc.1 fam l, acc.2) := by
        rw [List.foldl_cons, hstep]
      rw [hfold]
      have hkeysr : (os.foldl (wb_human_step props) (dictAppend acc.1 fam l, acc.2)).1.map
          Prod.fst = [fam] := ihx.2.2.2.1 hkeys2
      refine ⟨ihx.1, Or.inr hkeysr, fun _ => hkeysr, fun _ => hkeysr, ?_⟩
      intro x
      rw [ihx.2.2.2.2 x]
      show x ∈ ((dictAppend acc.1 fam l).map Prod.snd).flatten ∨ _ ↔ _
      rw [dictAppend_members]
      constructor
      · rintro ((h | rfl) | ⟨o2, ho2, hp⟩)
        · exact Or.inl h
        · exact Or.inr ⟨o, List.mem_cons_self _ _, hl⟩
        · exact Or.inr ⟨o2, List.mem_cons_of_mem _ ho2, hp⟩
      · rintro (h | ⟨o2, ho2, hp⟩)
        · exact Or.inl (Or.inl h)
        · rcases List.mem_cons.mp ho2 with heq | h2
          · subst heq
            rw [hl] at hp
            exact Or.inl (Or.inr (Option.some.inj hp).symm)
          · exact Or.inr ⟨o2, h2, hp⟩

/-- C2 (amended): in the family-grouped ortholog policy with more than 3
orthologs, the single-family dissolution check happens FIRST, on the initial
partition, before any reclassification: (i) when the initial partition does
not consist of exactly one family, singleton families and empty-named families
are reclassified into the no-family bucket but a family that is thereby left
as the only remaining one is NOT dissolved (every family with at least two
members and a non-empty name survives); (ii) when all orthologs map to one
single family the family bucket dissolves: every member's "symbol (name)"
rendering lands in the no-family bucket, and the rendered sentence consists of
the no-family clause only (no family clause). -/
theorem wb_human_family_rules (props : String → Option (List String))
    (orthologs : List (String × String)) (fam : String) :
    ((wb_human_initial props orthologs).1.length ≠ 1 →
      ∀ fp ∈ (wb_human_initial props orthologs).1, fp.2.length > 1 → fp.1 ≠ "" →
        fp ∈ (wb_human_resolve (wb_human_initial props orthologs).1
               (wb_human_initial props orthologs).2).1) ∧
    (orthologs.length > 3 →
     (∀ o ∈ orthologs, ∃ l, props o.1 = some l ∧ l.length = 4 ∧ l.getD 2 "" = fam) →
     (wb_human_resolve (wb_human_initial props orthologs).1
        (wb_human_initial props orthologs).2).1 = [] ∧
     (∀ o ∈ orthologs, ∀ l, props o.1 = some l →
        render_symbol_name l ∈
          (wb_human_resolve (wb_human_initial props orthologs).1
             (wb_human_initial props orthologs).2).2) ∧
     (generate_ortholog_sentence_wormbase_human orthologs props).2 =
       "is an ortholog of " ++ String.intercalate " and "
         ["human " ++ concatenate_words_with_oxford_comma
            (if (wb_human_resolve (wb_human_initial props orthologs).1
                   (wb_human_initial props orthologs).2).2.length > 3 then
               (wb_human_resolve (wb_human_initial props orthologs).1
                  (wb_human_initial props orthologs).2).2.take 3
             else
               (wb_human_resolve (wb_human_initial props orthologs).1
                  (wb_human_initial props orthologs).2).2)]) := by
  constructor
  · intro hne fp hfp h2 hname
    unfold wb_human_resolve
    rw [if_neg hne]
    simp only [List.mem_filter]
    exact ⟨hfp, by simp [h2, hname]⟩
  · intro h3 hall
    have hne : orthologs ≠ [] := by
      cases orthologs with
      | nil => simp at h3
      | cons a l => simp
    have haux := wb_human_fold_single props fam orthologs ([], []) hall (Or.inl rfl)
    have hkeys : (wb_human_initial props orthologs).1.map Prod.fst = [fam] :=
      haux.2.2.1 hne
    have hworaw : (wb_human_initial props orthologs).2 = [] := haux.1
    have hlen1 : (wb_human_initial props orthologs).1.length = 1 := by
      have := congrArg List.length hkeys
      simpa using this
    have hresolve : wb_human_resolve (wb_human_initial props orthologs).1
        (wb_human_initial props orthologs).2 =
        ([], setUpdate (wb_human_initial props orthologs).2
          (((wb_human_initial props orthologs).1.headD ("", [])).2.map render_symbol_name)) := by
      unfold wb_human_resolve
      rw [if_pos hlen1]
    -- the single entry of the family dict
    obtain ⟨p, t, hcons⟩ : ∃ p t, (wb_human_initial props orthologs).1 = p :: t := by
      cases hin : (wb_human_initial props orthologs).1 with
      | nil => rw [hin] at hlen1; simp at hlen1
      | cons p t => exact ⟨p, t, rfl⟩
    have ht : t = [] := by
      rw [hcons] at hlen1
      simpa using hlen1
    subst ht
    have hmem_members : ∀ o ∈ orthologs, ∀ l, props o.1 = some l → l ∈ p.2 := by
      intro o ho l hp
      have h0 := (haux.2.2.2.2 l).2 (Or.inr ⟨o, ho, hp⟩)
      have h1 : l ∈ ((wb_human_initial props orthologs).1.map Prod.snd).flatten := h0
      rw [hcons] at h1
      simpa using h1
    have hmem : ∀ o ∈ orthologs, ∀ l, props o.1 = some l →
        render_symbol_name l ∈
          (wb_human_resolve (wb_human_initial props orthologs).1
            (wb_human_initial props orthologs).2).2 := by
      intro o ho l hp
      rw [hresolve]
      show render_symbol_name l ∈ setUpdate _ _
      rw [mem_setUpdate]
      refine Or.inr ?_
      rw [hcons]
      show render_symbol_name l ∈ p.2.map render_symbol_name
      exact List.mem_map_of_mem _ (hmem_members o ho l hp)
    refine ⟨by rw [hresolve], hmem, ?_⟩
    -- sentence shape
    have hwo_ne : (wb_human_resolve (wb_human_initial props orthologs).1
        (wb_human_initial props orthologs).2).2 ≠ [] := by
      obtain ⟨o, ho⟩ : ∃ o, o ∈ orthologs := by
        cases orthologs with
        | nil => exact absurd rfl hne
        | cons a l => exact ⟨a, List.mem_cons_self _ _⟩
      obtain ⟨l, hl, _, _⟩ := hall o ho
      intro hnil
      have := hmem o ho l hl
      rw [hnil] at this
      exact absurd this (List.not_mem_nil _)
    have hwo_ne2 : setUpdate (wb_human_initial props orthologs).2
        (((wb_human_initial props orthologs).1.headD ("", [])).2.map render_symbol_name) ≠ [] := by
      rw [hresolve] at hwo_ne
      simpa using hwo_ne
    unfold generate_ortholog_sentence_wormbase_human
    rw [if_pos h3]
    simp only
    rw [hresolve]
    set W := setUpdate (wb_human_initial props orthologs).2
      (((wb_human_initial props orthologs).1.headD ("", [])).2.map render_symbol_name) with hW
    have hWne : W ≠ [] := hwo_ne2
    have hpos : (if W.length > 3 then W.take 3 else W).length > 0 := by
      split
      · rename_i hgt
        rw [List.length_take]
        omega
      · cases hcase : W with
        | nil => exact absurd hcase hWne
        | cons a t => simp
    rw [if_pos hpos]
    simp

/-- Concrete ortholog list used for the family-policy examples. -/
def c2orthologs : List (String × String) :=
  [("h1", "s1"), ("h2", "s2"), ("h3", "s3"), ("h4", "s4"), ("h5", "s5")]

/-- Human gene props mapping four orthologs into family "F" and one into the
singleton family "G". -/
def c2props : String → Option (List String) := fun g =>
  if g = "h1" then some ["S1", "N1", "F", "F gene family"]
  else if g = "h2" then some ["S2", "N2", "F", "F gene family"]
  else if g = "h3" then some ["S3", "N3", "F", "F gene family"]
  else if g = "h4" then some ["S4", "N4", "F", "F gene family"]
  else if g = "h5" then some ["S5", "N5", "G", "G gene family"]
  else none

/-- Human gene props mapping all five orthologs into the single family "F". -/
def c2propsAll : String → Option (List String) := fun g =>
  if g = "h1" then some ["S1", "N1", "F", "F gene family"]
  else if g = "h2" then some ["S2", "N2", "F", "F gene family"]
  else if g = "h3" then some ["S3", "N3", "F", "F gene family"]
  else if g = "h4" then some ["S4", "N4", "F", "F gene family"]
  else if g = "h5" then some ["S5", "N5", "F", "F gene family"]
  else none

/-- C2 counterexample: five orthologs, four in family "F" and one in the
singleton family "G". The singleton is reclassified into the no-family bucket,
so after reclassification exactly one family ("F") remains — yet, contrary to
the claim, it is NOT dissolved: the family bucket still contains "F" and the
rendering "S1 (N1)" of one of its members is absent from the no-family
bucket (the source checks the single-family condition before, not after,
reclassification). -/
theorem wb_human_family_rules_cex :
    ((wb_human_resolve (wb_human_initial c2props c2orthologs).1
        (wb_human_initial c2props c2orthologs).2).1).map Prod.fst = ["F"] ∧
    "S1 (N1)" ∉ (wb_human_resolve (wb_human_initial c2props c2orthologs).1
        (wb_human_initial c2props c2orthologs).2).2 ∧
    c2orthologs.length > 3 := by
  refine ⟨by decide, by decide, by decide⟩

theorem wb_human_family_rules_witness :
    (wb_human_resolve (wb_human_initial c2propsAll c2orthologs).1
       (wb_human_initial c2propsAll c2orthologs).2).1 = [] ∧
    "S5 (N5)" ∈ (wb_human_resolve (wb_human_initial c2propsAll c2orthologs).1
       (wb_human_initial c2propsAll c2orthologs).2).2 := by
  have h := (wb_human_family_rules c2propsAll c2orthologs "F").2 (by decide) ?hall
  case hall =>
    intro o ho
    fin_cases ho
    · exact ⟨["S1", "N1", "F", "F gene family"], by decide, by decide, by decide⟩
    · exact ⟨["S2", "N2", "F", "F gene family"], by decide, by decide, by decide⟩
    · exact ⟨["S3", "N3", "F", "F gene family"], by decide, by decide, by decide⟩
    · exact ⟨["S4", "N4", "F", "F gene family"], by decide, by decide, by decide⟩
    · exact ⟨["S5", "N5", "F", "F gene family"], by decide, by decide, by decide⟩
  refine ⟨h.1, ?_⟩
  have hm := h.2.1 ("h5", "s5") (by decide) ["S5", "N5", "F", "F gene family"] (by decide)
  exact hm

/-! ### generate_ortholog_sentence_wormbase_non_c_elegans (class-grouped policy) -/

/-- Python strict string comparison (code-point lexicographic). -/
def strLt (a b : String) : Prop := a.data < b.data

instance : DecidableRel strLt := fun a b => by unfold strLt; infer_instance

/-- The tuple comparison of the sort key lambda x: (x[1], x[0][1]):
popularity first, then symbol, both strict lexicographic. -/
def popSymLt (p q : Nat × String) : Prop :=
  p.1 < q.1 ∨ (p.1 = q.1 ∧ strLt p.2 q.2)

instance : DecidableRel popSymLt := fun p q => by unfold popSymLt; infer_instance

theorem popSymNotLt_iff (p q : Nat × String) :
    ¬ popSymLt p q ↔ q.1 < p.1 ∨ (q.1 = p.1 ∧ strLe q.2 p.2) := by
  unfold popSymLt strLt strLe
  constructor
  · intro h
    push_neg at h
    obtain ⟨h1, h2⟩ := h
    rcases Nat.lt_or_ge q.1 p.1 with hlt | hge
    · exact Or.inl hlt
    · have heq : p.1 = q.1 := by omega
      exact Or.inr ⟨heq.symm, not_lt.mpr (h2 heq)⟩
  · rintro (h | ⟨heq, hle⟩)
    · rintro (h2 | ⟨heq2, _⟩) <;> omega
    · rintro (h2 | ⟨heq2, hslt⟩)
      · omega
      · exact hle hslt

theorem popSymNotLt_total (p q : Nat × String) : ¬ popSymLt p q ∨ ¬ popSymLt q p := by
  rw [popSymNotLt_iff, popSymNotLt_iff]
  rcases Nat.lt_trichotomy p.1 q.1 with h | h | h
  · exact Or.inr (Or.inl h)
  · rcases strLe_total q.2 p.2 with hs | hs
    · exact Or.inl (Or.inr ⟨h.symm, hs⟩)
    · exact Or.inr (Or.inr ⟨h, hs⟩)
  · exact Or.inl (Or.inl h)

theorem popSymNotLt_trans {p q r : Nat × String}
    (h1 : ¬ popSymLt p q) (h2 : ¬ popSymLt q r) : ¬ popSymLt p r := by
  rw [popSymNotLt_iff] at h1 h2 ⊢
  rcases h1 with ha | ⟨hae, hal⟩
  · rcases h2 with hb | ⟨hbe, hbl⟩
    · exact Or.inl (by omega)
    · exact Or.inl (by omega)
  · rcases h2 with hb | ⟨hbe, hbl⟩
    · exact Or.inl (by omega)
    · refine Or.inr ⟨by omega, strLe_trans hbl hal⟩

/-- The key of sorted(..., key=lambda x: (x[1], x[0][1]), reverse=True) applied
to an (ortholog, popularity) pair. -/
def ranked_key (o_p : (String × String) × Nat) : Nat × String := (o_p.2, o_p.1.2)

/-- Lines 205-207 of sentence_generation_functions.py: pair each ortholog with
its Textpresso popularity (the external service is modeled as the function
argument pop applied to the symbol), then stable-sort with reverse=True on the
key (popularity, symbol). reverse=True inverts the whole tuple comparison, so
ties in popularity come out in DESCENDING symbol order. -/
def ranked_orthologs (pop : String → Nat) (orthologs : List (String × String)) :
    List ((String × String) × Nat) :=
  List.insertionSort (fun a b => ¬ popSymLt (ranked_key a) (ranked_key b))
    (orthologs.map (fun o => (o, pop o.2)))

/-- C4 counterexample: four orthologs with symbols "a","b","c","d", all with
the same popularity 7. The code ranks them "d","c","b","a": the first two have
equal popularity but "d" is NOT alphabetically before-or-equal "c", so ties
are not in ascending order as claimed. -/
theorem ranked_orthologs_cex :
    (ranked_orthologs (fun _ => 7) [("1", "a"), ("2", "b"), ("3", "c"), ("4", "d")]).map
        (fun x => (x.1.2, x.2)) = [("d", 7), ("c", 7), ("b", 7), ("a", 7)] ∧
    ¬ strLe "d" "c" ∧
    ([("1", "a"), ("2", "b"), ("3", "c"), ("4", "d")] : List (String × String)).length > 3 := by
  refine ⟨by decide, by decide, by decide⟩

/-- C4 (amended): in the class-grouped (sister-species) ortholog policy the
ranking step orders the (ortholog, popularity) pairs by popularity descending,
and any two entries with equal popularity are ordered alphabetically
DESCENDING by gene symbol (reverse=True inverts the tie-break too); the ranked
list is a permutation of the popularity-annotated input and each entry carries
the popularity of its own symbol. -/
theorem ranked_orthologs_sorted (pop : String → Nat) (orthologs : List (String × String)) :
    (ranked_orthologs pop orthologs).Perm (orthologs.map (fun o => (o, pop o.2))) ∧
    (∀ o_p ∈ ranked_orthologs pop orthologs, o_p.2 = pop o_p.1.2) ∧
    (ranked_orthologs pop orthologs).Pairwise
      (fun a b => b.2 < a.2 ∨ (b.2 = a.2 ∧ strLe b.1.2 a.1.2)) := by
  refine ⟨List.perm_insertionSort _ _, ?_, ?_⟩
  · intro o_p hmem
    have hmem2 : o_p ∈ orthologs.map (fun o => (o, pop o.2)) :=
      (List.perm_insertionSort _ _).mem_iff.mp hmem
    obtain ⟨o, _, rfl⟩ := List.mem_map.mp hmem2
    rfl
  · have hs := @List.sorted_insertionSort ((String × String) × Nat)
      (fun a b => ¬ popSymLt (ranked_key a) (ranked_key b)) _
      ⟨fun a b => popSymNotLt_total _ _⟩
      ⟨fun _ _ _ h1 h2 => popSymNotLt_trans h1 h2⟩
      (orthologs.map (fun o => (o, pop o.2)))
    refine List.Pairwise.imp ?_ hs
    intro a b h
    exact (popSymNotLt_iff (ranked_key a) (ranked_key b)).mp h

theorem ranked_orthologs_sorted_witness :
    (ranked_orthologs (fun s => s.length) [("1", "bb"), ("2", "a")]).Pairwise
      (fun a b => b.2 < a.2 ∨ (b.2 = a.2 ∧ strLe b.1.2 a.1.2)) :=
  (ranked_orthologs_sorted (fun s => s.length) [("1", "bb"), ("2", "a")]).2.2

/-- Python s.split(" ") on the character list: split on every single space,
keeping empty segments; "".split(" ") is [""]. -/
def splitSpaceChars : List Char → List (List Char)
  | [] => [[]]
  | c :: cs =>
      if c = ' ' then [] :: splitSpaceChars cs
      else
        match splitSpaceChars cs with
        | [] => [[c]]
        | g :: gs => (c :: g) :: gs

/-- Python s.split(" "). -/
def splitSpace (s : String) : List String := (splitSpaceChars s.data).map (fun cs => ⟨cs⟩)

/-- Python s[0] rendered as a 1-character string (used only where the source
guarantees a non-empty string). -/
def strTake1 (s : String) : String := ⟨s.data.take 1⟩

/-- The species-name abbreviation at the top of
generate_ortholog_sentence_wormbase_non_c_elegans: when the first word has
more than 2 characters it is replaced by its initial plus ".". -/
def abbrev_species (orthologs_sp_fullname : String) : String :=
  let fullname_arr := splitSpace orthologs_sp_fullname
  if (fullname_arr.headD "").length > 2 then
    String.intercalate " " ((strTake1 (fullname_arr.headD "") ++ ".") :: fullname_arr.tail)
  else orthologs_sp_fullname

/-- The class-partition loop of the >3 branch: each ranked (ortholog,
popularity) pair is appended to its gene class bucket when the class lookup
returns a truthy (non-None, non-empty) value, and to the no-class list
otherwise. The gene-class service (get_gene_class, whose failures are caught
and normalized to None) is modeled as the function argument geneClass. -/
def wb_ncel_partition (geneClass : String → Option String)
    (ranked : List ((String × String) × Nat)) :
    List (String × List ((String × String) × Nat)) × List ((String × String) × Nat) :=
  ranked.foldl
    (fun acc o_p =>
      match geneClass o_p.1.1 with
      | some c => if c ≠ "" then (dictAppend acc.1 c o_p, acc.2) else (acc.1, acc.2 ++ [o_p])
      | none => (acc.1, acc.2 ++ [o_p]))
    ([], [])

/-- The dissolution / singleton-merge step of the >3 branch: a single class is
dissolved into the no-class list; otherwise singleton classes are merged into
the no-class list and each surviving class keeps its first (highest-ranked)
member as representative. -/
def wb_ncel_resolve (classes : List (String × List ((String × String) × Nat)))
    (wo : List ((String × String) × Nat)) :
    List (String × ((String × String) × Nat)) × List ((String × String) × Nat) :=
  if classes.length = 1 then
    ([], wo ++ (classes.headD ("", [])).2)
  else
    let wo2 := classes.foldl (fun acc cp => if cp.2.length = 1 then acc ++ cp.2 else acc) wo
    ((classes.filter (fun cp => decide (cp.2.length > 1))).map
       (fun cp => (cp.1, cp.2.headD (("", ""), 0))), wo2)

/-- sorted_items of the >3 branch: no-class entries tagged none, class
representatives tagged with their class name; stable-sorted by popularity
descending (key x[0][1], reverse=True) and truncated later. -/
def wb_ncel_sorted_items
    (resolved : List (String × ((String × String) × Nat)) × List ((String × String) × Nat)) :
    List (((String × String) × Nat) × Option String) :=
  List.insertionSort (fun a b => b.1.2 ≤ a.1.2)
    (resolved.2.map (fun o_p => (o_p, none)) ++
     resolved.1.map (fun cp => (cp.2, some cp.1)))

/-- generate_ortholog_sentence_wormbase_non_c_elegans from
sentence_generation_functions.py. The Textpresso popularity service and the
gene-class service are modeled as the function arguments pop and geneClass. -/
def generate_ortholog_sentence_wormbase_non_c_elegans (pop : String → Nat)
    (geneClass : String → Option String) (orthologs : List (String × String))
    (orthologs_sp_fullname : String) : Option String :=
  if orthologs.length > 0 then
    let sp := abbrev_species orthologs_sp_fullname
    if orthologs.length > 3 then
      let ranked := ranked_orthologs pop orthologs
      let part := wb_ncel_partition geneClass ranked
      let resolved := wb_ncel_resolve part.1 part.2
      let items0 := wb_ncel_sorted_items resolved
      let items := if items0.length > 3 then items0.take 3 else items0
      let gene_symbols_wo_class := (items.filter (fun it => it.2.isNone)).map (fun it => it.1.1.2)
      let classes_symbols := (items.filter (fun it => it.2.isSome)).map (fun it => it.2.getD "")
      let genes_symbols_in_classes :=
        (items.filter (fun it => it.2.isSome)).map (fun it => it.1.1.2)
      let sentences_arr :=
        (if gene_symbols_wo_class.length > 0 then
          [sp ++ " " ++ concatenate_words_with_oxford_comma gene_symbols_wo_class]
         else []) ++
        (if classes_symbols.length > 0 then
          ["members of the " ++ sp ++ " " ++
           concatenate_words_with_oxford_comma classes_symbols ++ " gene " ++
           (if classes_symbols.length > 1 then "classes" else "class") ++ " including " ++
           concatenate_words_with_oxford_comma genes_symbols_in_classes]
         else [])
      some ("is an ortholog of " ++ String.intercalate " and " sentences_arr)
    else
      some ("is an ortholog of " ++ sp ++ " " ++
            concatenate_words_with_oxford_comma (pySortedStr (orthologs.map (fun o => o.2))))
  else
    none

/-! ### WBDataManager.get_best_orthologs_for_gene (wb_data_manager.py) -/

/-- Ortholog record as loaded by load_orthology_from_file: the stored row is
ortholog_arr[1:4] = [gene_id, gene_symbol, methods] (methods is a
";"-separated list of prediction methods). -/
structure WBOrtholog where
  gene_id : String
  gene_symbol : String
  methods : String
deriving DecidableEq

/-- Python len(ortholog[2].split(";")): for the non-empty single-character
separator this equals the number of ";" occurrences plus one (split keeps
empty segments, and "".split(";") == [""]). -/
def methodCount (methods : String) : Nat := methods.data.count ';' + 1

/-- Lexicographic strict order on (method-count, annotation-count) pairs, the
tuple comparison behind key=lambda x: (x[2], x[3]). -/
def natPairLt (p q : Nat × Nat) : Prop := p.1 < q.1 ∨ (p.1 = q.1 ∧ p.2 < q.2)

instance : DecidableRel natPairLt := fun p q => by unfold natPairLt; infer_instance

theorem natPairNotLt_iff (p q : Nat × Nat) :
    ¬ natPairLt p q ↔ q.1 < p.1 ∨ (q.1 = p.1 ∧ q.2 ≤ p.2) := by
  unfold natPairLt
  omega

theorem natPairNotLt_total (p q : Nat × Nat) : ¬ natPairLt p q ∨ ¬ natPairLt q p := by
  unfold natPairLt
  omega

theorem natPairNotLt_trans {p q r : Nat × Nat}
    (h1 : ¬ natPairLt p q) (h2 : ¬ natPairLt q r) : ¬ natPairLt p r := by
  unfold natPairLt at *
  omega

/-- Python max() over a non-empty list of naturals (modeled with foldl;
for the non-empty lists the source applies it to, this is the maximum). -/
def pyMaxNat (l : List Nat) : Nat := l.foldl max 0

theorem pyMaxNat_aux (l : List Nat) : ∀ a : Nat,
    a ≤ l.foldl max a ∧ (∀ x ∈ l, x ≤ l.foldl max a) ∧
    (l.foldl max a = a ∨ l.foldl max a ∈ l) := by
  induction l with
  | nil => intro a; refine ⟨le_refl a, by simp, Or.inl rfl⟩
  | cons b t ih =>
      intro a
      have h1 := ih (max a b)
      refine ⟨le_trans (le_max_left a b) h1.1, ?_, ?_⟩
      · intro x hx
        rcases List.mem_cons.mp hx with heq | hx2
        · rw [heq]
          exact le_trans (le_max_right a b) h1.1
        · exact h1.2.1 x hx2
      · rcases h1.2.2 with he | hm
        · rcases Nat.le_total a b with hab | hba
          · refine Or.inr ?_
            show t.foldl max (max a b) ∈ b :: t
            rw [he, max_eq_right hab]
            exact List.mem_cons_self b t
          · refine Or.inl ?_
            show t.foldl max (max a b) = a
            rw [he]
            exact max_eq_left hba
        · exact Or.inr (List.mem_cons_of_mem b hm)

theorem le_pyMaxNat (l : List Nat) (x : Nat) (hx : x ∈ l) : x ≤ pyMaxNat l :=
  (pyMaxNat_aux l 0).2.1 x hx

theorem pyMaxNat_mem (l : List Nat) (h : l ≠ []) : pyMaxNat l ∈ l := by
  rcases (pyMaxNat_aux l 0).2.2 with he | hm
  · cases l with
    | nil => exact absurd rfl h
    | cons b t =>
        have hb : b ≤ pyMaxNat (b :: t) := le_pyMaxNat _ b (List.mem_cons_self _ _)
        have hz : pyMaxNat (b :: t) = 0 := he
        rw [hz] at hb
        have hb0 : b = 0 := Nat.le_zero.mp hb
        rw [hz, ← hb0]
        exact List.mem_cons_self b t
  · exact hm

/-- The sister-species selection of get_best_orthologs_for_gene: every
candidate is augmented with its method count and the number of qualifying
annotations from the sister-species data fetcher (modeled by the function
annotCount), and the first entry of the stable descending sort by
(method-count, annotation-count) is kept, projected to [gene_id, gene_symbol].
The source indexes sorted(...)[0], which its caller guards by len > 1. -/
def bestWithSister (annotCount : String → Nat) (orthologs : List WBOrtholog) :
    List (String × String) :=
  let orthologs_keys := orthologs.map (fun o => (o, methodCount o.methods, annotCount o.gene_id))
  let sorted := List.insertionSort (fun a b => ¬ natPairLt a.2 b.2) orthologs_keys
  [((sorted.headD (⟨"", "", ""⟩, 0, 0)).1.gene_id,
    (sorted.headD (⟨"", "", ""⟩, 0, 0)).1.gene_symbol)]

/-- The no-sister selection of get_best_orthologs_for_gene: candidates are
sorted by method count descending, and every candidate whose method count
equals the maximum is kept, projected to [gene_id, gene_symbol]. -/
def bestWithoutSister (orthologs : List WBOrtholog) : List (String × String) :=
  let orthologs_keys := orthologs.map (fun o => (o, methodCount o.methods))
  let m := pyMaxNat (orthologs_keys.map (fun k => k.2))
  ((List.insertionSort (fun a b => b.2 ≤ a.2) orthologs_keys).filter
      (fun k => decide (k.2 = m))).map (fun k => (k.1.gene_id, k.1.gene_symbol))

/-- The per-species selection body of get_best_orthologs_for_gene, entered
when a species has a non-empty ortholog list. -/
def select_best (sister : Option (String → Nat)) (orths : List WBOrtholog) :
    List (String × String) :=
  if orths.length > 1 then
    match sister with
    | some ac => bestWithSister ac orths
    | none => bestWithoutSister orths
  else
    [((orths.headD ⟨"", "", ""⟩).gene_id, (orths.headD ⟨"", "", ""⟩).gene_symbol)]

/-- The species scan of get_best_orthologs_for_gene. The Python loop variable
curr_orth_fullname survives the loop: after a completed (break-less) scan it
holds the LAST candidate species, which the accumulator argument tracks. A
species key absent from the orthologs dict (lookup none) or present with an
empty record list is skipped without breaking. -/
def bestOrthLoop (lookup : String → Option (List WBOrtholog))
    (sister : Option (String → Nat)) :
    List String → Option String → Option (List (String × String)) × Option String
  | [], last => (none, last)
  | sp :: rest, _ =>
      match lookup sp with
      | some orths =>
          if orths.length > 0 then (some (select_best sister orths), some sp)
          else bestOrthLoop lookup sister rest (some sp)
      | none => bestOrthLoop lookup sister rest (some sp)

/-- WBDataManager.get_best_orthologs_for_gene. self.orthologs is modeled as
the curried partial map orthologs (gene id → species name → records);
the optional sister_species_data_fetcher is modeled by the count of
qualifying GO annotations it returns per ortholog gene id. -/
def get_best_orthologs_for_gene (orthologs : String → String → Option (List WBOrtholog))
    (gene_id : String) (orth_species_full_name : List String)
    (sister : Option (String → Nat)) :
    Option (List (String × String)) × Option String :=
  if orth_species_full_name.length > 0 then
    bestOrthLoop (orthologs gene_id) sister orth_species_full_name none
  else
    (none, none)

/-- C1 counterexample: with two candidate species and no ortholog data at all,
the function returns (None, "Homo sapiens") — the Python for-loop variable
keeps the last candidate species — not (None, None) as claimed. -/
theorem get_best_orthologs_c1_cex :
    get_best_orthologs_for_gene (fun _ _ => none) "WB:g" ["Mus musculus", "Homo sapiens"] none =
      (none, some "Homo sapiens") ∧
    ((none, some "Homo sapiens") :
      Option (List (String × String)) × Option String) ≠ (none, none) := by
  refine ⟨rfl, by decide⟩

theorem bestOrthLoop_no_data (lookup : String → Option (List WBOrtholog))
    (sister : Option (String → Nat)) :
    ∀ (species : List String) (last : Option String) (hne : species ≠ []),
    (∀ sp ∈ species, lookup sp = none ∨ lookup sp = some []) →
    bestOrthLoop lookup sister species last = (none, some (species.getLast hne)) := by
  intro species
  induction species with
  | nil => intro last hne; exact absurd rfl hne
  | cons sp rest ih =>
      intro last hne hnodata
      have hstep : bestOrthLoop lookup sister (sp :: rest) last =
          bestOrthLoop lookup sister rest (some sp) := by
        rcases hnodata sp (List.mem_cons_self _ _) with h | h
        · show (match lookup sp with
            | some orths => if orths.length > 0 then (some (select_best sister orths), some sp)
              else bestOrthLoop lookup sister rest (some sp)
            | none => bestOrthLoop lookup sister rest (some sp)) = _
          rw [h]
        · show (match lookup sp with
            | some orths => if orths.length > 0 then (some (select_best sister orths), some sp)
              else bestOrthLoop lookup sister rest (some sp)
            | none => bestOrthLoop lookup sister rest (some sp)) = _
          rw [h]
          rfl
      rw [hstep]
      cases rest with
      | nil => rfl
      | cons sp2 rest2 =>
          have hne2 : (sp2 :: rest2) ≠ [] := by simp
          rw [ih (some sp) hne2
            (fun s hs => hnodata s (List.mem_cons_of_mem _ hs))]
          have : (sp :: sp2 :: rest2).getLast hne = (sp2 :: rest2).getLast hne2 :=
            List.getLast_cons hne2
          rw [this]

/-- C1 (amended): when the candidate species list is non-empty and no
candidate species has any ortholog records for the gene, the function returns
(None, last candidate species name) — the loop variable retains the last
species — and only for an empty candidate list is the result (None, None). -/
theorem get_best_orthologs_no_data (orthologs : String → String → Option (List WBOrtholog))
    (gene_id : String) (species : List String) (sister : Option (String → Nat))
    (hne : species ≠ [])
    (hnodata : ∀ sp ∈ species, orthologs gene_id sp = none ∨ orthologs gene_id sp = some []) :
    get_best_orthologs_for_gene orthologs gene_id species sister =
      (none, some (species.getLast hne)) ∧
    (∀ sister2, get_best_orthologs_for_gene orthologs gene_id [] sister2 = (none, none)) := by
  constructor
  · have hpos : species.length > 0 := by
      cases species with
      | nil => exact absurd rfl hne
      | cons a l => simp
    unfold get_best_orthologs_for_gene
    rw [if_pos hpos]
    exact bestOrthLoop_no_data (orthologs gene_id) sister species none hne hnodata
  · intro sister2
    rfl

theorem get_best_orthologs_no_data_witness :
    get_best_orthologs_for_gene (fun _ _ => none) "WB:g2"
      ["Caenorhabditis briggsae", "Homo sapiens"] none = (none, some "Homo sapiens") := by
  have h := (get_best_orthologs_no_data (fun _ _ => none) "WB:g2"
    ["Caenorhabditis briggsae", "Homo sapiens"] none (by decide)
    (fun sp _ => Or.inl rfl)).1
  exact h.trans (by decide)

theorem bestOrthLoop_reach (lookup : String → Option (List WBOrtholog))
    (sister : Option (String → Nat)) (sp : String) (orths : List WBOrtholog)
    (hsp : lookup sp = some orths) (hpos : orths.length > 0) :
    ∀ (pre rest : List String) (last : Option String),
    (∀ s ∈ pre, lookup s = none ∨ lookup s = some []) →
    bestOrthLoop lookup sister (pre ++ sp :: rest) last =
      (some (select_best sister orths), some sp) := by
  intro pre
  induction pre with
  | nil =>
      intro rest last hpre
      show (match lookup sp with
        | some o => if o.length > 0 then (some (select_best sister o), some sp)
          else bestOrthLoop lookup sister rest (some sp)
        | none => bestOrthLoop lookup sister rest (some sp)) = _
      rw [hsp]
      simp only
      rw [if_pos hpos]
  | cons s pre2 ih =>
      intro rest last hpre
      have hstep : bestOrthLoop lookup sister ((s :: pre2) ++ sp :: rest) last =
          bestOrthLoop lookup sister (pre2 ++ sp :: rest) (some s) := by
        rcases hpre s (List.mem_cons_self _ _) with h | h
        · show (match lookup s with
            | some o => if o.length > 0 then
                (some (select_best sister o), some s)
              else bestOrthLoop lookup sister (pre2 ++ sp :: rest) (some s)
            | none => bestOrthLoop lookup sister (pre2 ++ sp :: rest) (some s)) = _
          rw [h]
        · show (match lookup s with
            | some o => if o.length > 0 then
                (some (select_best sister o), some s)
              else bestOrthLoop lookup sister (pre2 ++ sp :: rest) (some s)
            | none => bestOrthLoop lookup sister (pre2 ++ sp :: rest) (some s)) = _
          rw [h]
          rfl
      rw [hstep]
      exact ih rest (some s) (fun s2 hs2 => hpre s2 (List.mem_cons_of_mem _ hs2))

theorem bestWithSister_spec (ac : String → Nat) (orths : List WBOrtholog) (hne : orths ≠ []) :
    ∃ o ∈ orths, bestWithSister ac orths = [(o.gene_id, o.gene_symbol)] ∧
      ∀ o2 ∈ orths, ¬ natPairLt (methodCount o.methods, ac o.gene_id)
        (methodCount o2.methods, ac o2.gene_id) := by
  unfold bestWithSister
  simp only
  set keys := orths.map (fun o => (o, methodCount o.methods, ac o.gene_id)) with hkeys
  set r := fun (a b : WBOrtholog × Nat × Nat) => ¬ natPairLt a.2 b.2 with hr
  have hperm : (List.insertionSort r keys).Perm keys := List.perm_insertionSort r keys
  have hsorted : (List.insertionSort r keys).Pairwise r :=
    @List.sorted_insertionSort _ r _ ⟨fun a b => natPairNotLt_total a.2 b.2⟩
      ⟨fun _ _ _ h1 h2 => natPairNotLt_trans h1 h2⟩ keys
  obtain ⟨h0, t0, hcons⟩ : ∃ h0 t0, List.insertionSort r keys = h0 :: t0 := by
    cases hs : List.insertionSort r keys with
    | nil =>
        exfalso
        have hlen := hperm.length_eq
        rw [hs] at hlen
        cases orths with
        | nil => exact absurd rfl hne
        | cons a t => rw [hkeys] at hlen; simp at hlen
    | cons h0 t0 => exact ⟨h0, t0, rfl⟩
  have hh0mem : h0 ∈ keys := hperm.mem_iff.mp (by rw [hcons]; exact List.mem_cons_self _ _)
  obtain ⟨o, homem, heq⟩ := List.mem_map.mp hh0mem
  refine ⟨o, homem, ?_, ?_⟩
  · rw [hcons]
    simp only [List.headD_cons]
    rw [← heq]
  · intro o2 ho2
    have hk2 : (o2, methodCount o2.methods, ac o2.gene_id) ∈ keys :=
      List.mem_map_of_mem _ ho2
    have hk2s : (o2, methodCount o2.methods, ac o2.gene_id) ∈ List.insertionSort r keys :=
      hperm.mem_iff.mpr hk2
    rw [hcons] at hk2s
    rcases List.mem_cons.mp hk2s with heq2 | hmem2
    · have hpair : (methodCount o2.methods, ac o2.gene_id) =
          (methodCount o.methods, ac o.gene_id) := by
        have := heq2.trans heq.symm
        exact congrArg Prod.snd this
      rw [hpair]
      exact (natPairNotLt_iff _ _).mpr (Or.inr ⟨rfl, le_refl _⟩)
    · have hrel : r h0 (o2, methodCount o2.methods, ac o2.gene_id) :=
        (List.pairwise_cons.mp (hcons ▸ hsorted)).1 _ hmem2
      rw [hr] at hrel
      rw [← heq] at hrel
      exact hrel

theorem bestWithoutSister_mem (orths : List WBOrtholog) (p : String × String) :
    p ∈ bestWithoutSister orths ↔
      ∃ o ∈ orths, methodCount o.methods =
          pyMaxNat (orths.map (fun o2 => methodCount o2.methods)) ∧
        p = (o.gene_id, o.gene_symbol) := by
  unfold bestWithoutSister
  simp only
  have hmm : (orths.map (fun o => (o, methodCount o.methods))).map
      (fun k => k.2) = orths.map (fun o2 => methodCount o2.methods) := by
    rw [List.map_map]
    rfl
  rw [hmm]
  constructor
  · intro hp
    obtain ⟨k, hkf, hkp⟩ := List.mem_map.mp hp
    obtain ⟨hks, hkm⟩ := List.mem_filter.mp hkf
    have hk : k ∈ orths.map (fun o => (o, methodCount o.methods)) :=
      (List.perm_insertionSort _ _).mem_iff.mp hks
    obtain ⟨o, ho, heq⟩ := List.mem_map.mp hk
    refine ⟨o, ho, ?_, ?_⟩
    · have : k.2 = pyMaxNat (orths.map (fun o2 => methodCount o2.methods)) := by
        simpa using hkm
      rw [← heq] at this
      exact this
    · rw [← hkp, ← heq]
  · rintro ⟨o, ho, hmax, rfl⟩
    refine List.mem_map.mpr ⟨(o, methodCount o.methods), ?_, rfl⟩
    refine List.mem_filter.mpr ⟨?_, by simpa using hmax⟩
    exact (List.perm_insertionSort _ _).mem_iff.mpr (List.mem_map_of_mem _ ho)

/-- C6: in get_best_orthologs_for_gene, when the first species with data has
multiple orthologs: with a sister-species data source supplied the result is
the single candidate maximizing (method-count, sister-annotation-count)
lexicographically (no entry has a lexicographically greater pair); without a
sister-species source the result contains exactly the candidates whose
method-count equals the maximum method-count — every tied candidate is
included. -/
theorem get_best_orthologs_multiple (orthologs : String → String → Option (List WBOrtholog))
    (gene_id : String) (pre : List String) (sp : String) (rest : List String)
    (orths : List WBOrtholog) (ac : String → Nat)
    (hpre : ∀ s ∈ pre, orthologs gene_id s = none ∨ orthologs gene_id s = some [])
    (hsp : orthologs gene_id sp = some orths) (hmul : orths.length > 1) :
    (get_best_orthologs_for_gene orthologs gene_id (pre ++ sp :: rest) (some ac) =
       (some (bestWithSister ac orths), some sp) ∧
     ∃ o ∈ orths, bestWithSister ac orths = [(o.gene_id, o.gene_symbol)] ∧
       ∀ o2 ∈ orths, ¬ natPairLt (methodCount o.methods, ac o.gene_id)
         (methodCount o2.methods, ac o2.gene_id)) ∧
    (get_best_orthologs_for_gene orthologs gene_id (pre ++ sp :: rest) none =
       (some (bestWithoutSister orths), some sp) ∧
     ∀ p : String × String, p ∈ bestWithoutSister orths ↔
       ∃ o ∈ orths, methodCount o.methods =
           pyMaxNat (orths.map (fun o2 => methodCount o2.methods)) ∧
         p = (o.gene_id, o.gene_symbol)) := by
  have hne : orths ≠ [] := by
    cases orths with
    | nil => simp at hmul
    | cons a t => simp
  have hpos : orths.length > 0 := by omega
  have hlpos : (pre ++ sp :: rest).length > 0 := by
    rw [List.length_append]
    simp
  have hmain : ∀ sister, get_best_orthologs_for_gene orthologs gene_id
      (pre ++ sp :: rest) sister = (some (select_best sister orths), some sp) := by
    intro sister
    unfold get_best_orthologs_for_gene
    rw [if_pos hlpos]
    exact bestOrthLoop_reach (orthologs gene_id) sister sp orths hsp hpos pre rest none hpre
  constructor
  · constructor
    · rw [hmain (some ac)]
      unfold select_best
      rw [if_pos hmul]
    · exact bestWithSister_spec ac orths hne
  · constructor
    · rw [hmain none]
      unfold select_best
      rw [if_pos hmul]
    · exact fun p => bestWithoutSister_mem orths p

/-- Concrete data for the best-ortholog selection example: two candidates,
one predicted by one method, the other by two. -/
def c6orths : List WBOrtholog := [⟨"o1", "a", "m1"⟩, ⟨"o2", "b", "m1;m2"⟩]

def c6lookup : String → String → Option (List WBOrtholog) := fun g sp =>
  if g = "g" ∧ sp = "Homo sapiens" then some c6orths else none

theorem get_best_orthologs_multiple_witness :
    get_best_orthologs_for_gene c6lookup "g" ["Homo sapiens"] (some (fun _ => 0)) =
      (some [("o2", "b")], some "Homo sapiens") ∧
    get_best_orthologs_for_gene c6lookup "g" ["Homo sapiens"] none =
      (some [("o2", "b")], some "Homo sapiens") := by
  have h := get_best_orthologs_multiple c6lookup "g" [] "Homo sapiens" [] c6orths
    (fun _ => 0) (by simp) (by decide) (by decide)
  constructor
  · have h1 := h.1.1
    simp only [List.nil_append] at h1
    rw [h1]
    decide
  · have h2 := h.2.1
    simp only [List.nil_append] at h2
    rw [h2]
    decide

/-! ### WBRawDataFetcher.get_go_annotations (data_fetcher.py) -/

/-- The GOAnnotation namedtuple of data_fetcher.py: (go_id, qualifier,
paper_reference, evidence_code, aspect, annotation_ext, go_name, is_obsolete);
the aspect enum is kept as a string here. -/
structure GOAnnot where
  go_id : String
  qualifier : String
  paper_reference : String
  evidence_code : String
  aspect : String
  annot_ext : String
  go_name : String
  is_obsolete : Bool
deriving DecidableEq

/-- Lookup in dict(zip(priority_list, reversed(range(len(priority_list))))):
the pair for index i is (priority_list[i], len-1-i), and a later duplicate key
overwrites an earlier one — hence the recursion tries the tail first. The
last element gets rank 0; membership in the dict is a some result. -/
def priority_rank (priority_list : List String) (c : String) : Option Nat :=
  match priority_list with
  | [] => none
  | x :: xs =>
      match priority_rank xs c with
      | some r => some r
      | none => if x = c then some xs.length else none

/-- The obsolescence filter at the top of get_go_annotations:
annotations pass when include_obsolete or not annotation.is_obsolete. -/
def filter_obsolete (go_data : List GOAnnot) (include_obsolete : Bool) : List GOAnnot :=
  go_data.filter (fun a => include_obsolete || ! a.is_obsolete)

/-- Python dict lookup on the insertion-ordered association list modeling
go_id_selected_annotation. -/
def lookupAssoc (m : List (String × GOAnnot)) (k : String) : Option GOAnnot :=
  match m with
  | [] => none
  | (k0, v) :: rest => if k0 = k then some v else lookupAssoc rest k

/-- Python dict value replacement: the key keeps its original position. -/
def selUpdate (m : List (String × GOAnnot)) (k : String) (v : GOAnnot) :
    List (String × GOAnnot) :=
  match m with
  | [] => [(k, v)]
  | (k0, v0) :: rest => if k0 = k then (k0, v) :: rest else (k0, v0) :: selUpdate rest k v

/-- One iteration of the selection loop of get_go_annotations: annotations
whose evidence code is missing from the priority map are skipped; a new go_id
is inserted; an existing go_id is replaced only when the new annotation has a
strictly greater priority rank. Every stored annotation passed the code check,
so its rank lookup is a some; the none fallback below keeps the map unchanged
and is unreachable. -/
def go_sel_step (priority_list : List String) (m : List (String × GOAnnot)) (a : GOAnnot) :
    List (String × GOAnnot) :=
  match priority_rank priority_list a.evidence_code with
  | none => m
  | some r =>
      match lookupAssoc m a.go_id with
      | some old =>
          match priority_rank priority_list old.evidence_code with
          | some rOld => if r > rOld then selUpdate m a.go_id a else m
          | none => m
      | none => m ++ [(a.go_id, a)]

/-- WBRawDataFetcher.get_go_annotations: the per-gene annotation set
(self.go_data[geneid], here the go_data argument) is filtered for
obsolescence, then reduced to at most one annotation per go_id by priority,
and the dict values are returned in key insertion order. -/
def get_go_annotations (go_data : List GOAnnot) (include_obsolete : Bool)
    (priority_list : List String) : List GOAnnot :=
  ((filter_obsolete go_data include_obsolete).foldl (go_sel_step priority_list) []).map
    Prod.snd

theorem selUpdate_values (k : String) (v : GOAnnot) : ∀ (m : List (String × GOAnnot))
    (x : GOAnnot), x ∈ (selUpdate m k v).map Prod.snd → x ∈ m.map Prod.snd ∨ x = v := by
  intro m
  induction m with
  | nil =>
      intro x hx
      simp [selUpdate] at hx
      exact Or.inr hx
  | cons p rest ih =>
      obtain ⟨k0, v0⟩ := p
      intro x hx
      by_cases hk : k0 = k
      · rw [show selUpdate ((k0, v0) :: rest) k v = (k0, v) :: rest by
          simp [selUpdate, hk]] at hx
        rcases List.mem_cons.mp hx with heq | hmem
        · exact Or.inr heq
        · exact Or.inl (List.mem_cons_of_mem _ hmem)
      · rw [show selUpdate ((k0, v0) :: rest) k v = (k0, v0) :: selUpdate rest k v by
          simp [selUpdate, hk]] at hx
        rcases List.mem_cons.mp hx with heq | hmem
        · exact Or.inl (by rw [heq]; exact List.mem_cons_self _ _)
        · rcases ih x hmem with h | h
          · exact Or.inl (List.mem_cons_of_mem _ h)
          · exact Or.inr h

theorem go_sel_step_values (priority_list : List String) (m : List (String × GOAnnot))
    (a : GOAnnot) (x : GOAnnot) (hx : x ∈ (go_sel_step priority_list m a).map Prod.snd) :
    x ∈ m.map Prod.snd ∨ x = a := by
  unfold go_sel_step at hx
  split at hx
  · exact Or.inl hx
  · split at hx
    · split at hx
      · split at hx
        · exact selUpdate_values a.go_id a m x hx
        · exact Or.inl hx
      · exact Or.inl hx
    · rcases List.mem_map.mp hx with ⟨p, hp, hpx⟩
      rcases List.mem_append.mp hp with hp2 | hp2
      · exact Or.inl (hpx ▸ List.mem_map_of_mem _ hp2)
      · rcases List.mem_singleton.mp hp2 with rfl
        exact Or.inr hpx.symm

theorem go_sel_fold_values (priority_list : List String) :
    ∀ (annots : List GOAnnot) (m : List (String × GOAnnot)) (x : GOAnnot),
    x ∈ (annots.foldl (go_sel_step priority_list) m).map Prod.snd →
    x ∈ m.map Prod.snd ∨ x ∈ annots := by
  intro annots
  induction annots with
  | nil => intro m x hx; exact Or.inl hx
  | cons a rest ih =>
      intro m x hx
      rcases ih (go_sel_step priority_list m a) x hx with h | h
      · rcases go_sel_step_values priority_list m a x h with h2 | h2
        · exact Or.inl h2
        · exact Or.inr (by rw [h2]; exact List.mem_cons_self _ _)
      · exact Or.inr (List.mem_cons_of_mem _ h)

/-- C9: with include_obsolete=false no returned annotation has is_obsolete
true; with include_obsolete=true the obsolescence filter is the identity, so
obsolete annotations enter priority selection unchanged alongside the others. -/
theorem get_go_annotations_obsolete (go_data : List GOAnnot) (priority_list : List String) :
    (∀ a ∈ get_go_annotations go_data false priority_list, a.is_obsolete = false) ∧
    filter_obsolete go_data true = go_data := by
  constructor
  · intro a ha
    have h := go_sel_fold_values priority_list (filter_obsolete go_data false) [] a ha
    rcases h with h2 | h2
    · simp at h2
    · have := List.of_mem_filter h2
      simpa using this
  · unfold filter_obsolete
    simp

theorem get_go_annotations_obsolete_witness :
    (⟨"GO:1", "", "", "IEA", "F", "", "n1", false⟩ : GOAnnot).is_obsolete = false ∧
    filter_obsolete [⟨"GO:2", "", "", "IEA", "F", "", "n2", true⟩,
                     ⟨"GO:1", "", "", "IEA", "F", "", "n1", false⟩] true =
      [⟨"GO:2", "", "", "IEA", "F", "", "n2", true⟩,
       ⟨"GO:1", "", "", "IEA", "F", "", "n1", false⟩] :=
  ⟨(get_go_annotations_obsolete
      [⟨"GO:2", "", "", "IEA", "F", "", "n2", true⟩,
       ⟨"GO:1", "", "", "IEA", "F", "", "n1", false⟩] ["IEA"]).1
      ⟨"GO:1", "", "", "IEA", "F", "", "n1", false⟩ (by decide),
   (get_go_annotations_obsolete
      [⟨"GO:2", "", "", "IEA", "F", "", "n2", true⟩,
       ⟨"GO:1", "", "", "IEA", "F", "", "n1", false⟩] ["IEA"]).2⟩

theorem priority_rank_not_mem (c : String) :
    ∀ l : List String, c ∉ l → priority_rank l c = none := by
  intro l
  induction l with
  | nil => intro _; rfl
  | cons x xs ih =>
      intro hc
      have hx : x ≠ c := fun h => hc (by rw [h]; exact List.mem_cons_self _ _)
      have hxs : c ∉ xs := fun h => hc (List.mem_cons_of_mem _ h)
      show (match priority_rank xs c with
        | some r => some r
        | none => if x = c then some xs.length else none) = none
      rw [ih hxs, if_neg hx]

theorem priority_rank_get : ∀ (l : List String), l.Nodup →
    ∀ i (hi : i < l.length), priority_rank l (l.get ⟨i, hi⟩) = some (l.length - 1 - i) := by
  intro l
  induction l with
  | nil => intro _ i hi; simp at hi
  | cons x xs ih =>
      intro hnd i hi
      have hnd2 := List.nodup_cons.mp hnd
      cases i with
      | zero =>
          show (match priority_rank xs x with
            | some r => some r
            | none => if x = x then some xs.length else none) = _
          rw [priority_rank_not_mem x xs hnd2.1, if_pos rfl]
          simp
      | succ j =>
          have hj : j < xs.length := by
            simp at hi
            omega
          have hrec := ih hnd2.2 j hj
          show (match priority_rank xs ((x :: xs).get ⟨j + 1, hi⟩) with
            | some r => some r
            | none => if x = (x :: xs).get ⟨j + 1, hi⟩ then some xs.length else none) = _
          have hget : (x :: xs).get ⟨j + 1, hi⟩ = xs.get ⟨j, hj⟩ := rfl
          rw [hget, hrec]
          have : xs.length - 1 - j = (x :: xs).length - 1 - (j + 1) := by
            simp
            omega
          rw [this]

/-- C5: for a gene with exactly two annotations on the same term id, one
with evidence code "EXP" and one with "IEA", and a priority order ranking
"EXP" strictly above "IEA" (both present), get_go_annotations returns exactly
the EXP annotation, in either storage order; and the priority mapping built
from a duplicate-free order gives the last element rank 0 and each earlier
element a strictly higher rank. -/
theorem go_priority_selection (priority_list : List String) (pe pi : Nat)
    (hpe : priority_rank priority_list "EXP" = some pe)
    (hpi : priority_rank priority_list "IEA" = some pi)
    (hgt : pi < pe)
    (a_exp a_iea : GOAnnot)
    (hce : a_exp.evidence_code = "EXP") (hci : a_iea.evidence_code = "IEA")
    (hterm : a_iea.go_id = a_exp.go_id)
    (hoe : a_exp.is_obsolete = false) (hoi : a_iea.is_obsolete = false)
    (inc : Bool) :
    (get_go_annotations [a_exp, a_iea] inc priority_list = [a_exp] ∧
     get_go_annotations [a_iea, a_exp] inc priority_list = [a_exp]) ∧
    ((∀ (l : List String) (hnd : l.Nodup) (hne : l ≠ []),
        priority_rank l (l.getLast hne) = some 0) ∧
     (∀ (l : List String), l.Nodup → ∀ i j (hi : i < l.length) (hj : j < l.length),
        i < j → ∃ ri rj, priority_rank l (l.get ⟨i, hi⟩) = some ri ∧
          priority_rank l (l.get ⟨j, hj⟩) = some rj ∧ rj < ri)) := by
  have hfe : filter_obsolete [a_exp, a_iea] inc = [a_exp, a_iea] := by
    unfold filter_obsolete
    simp [hoe, hoi]
  have hfi : filter_obsolete [a_iea, a_exp] inc = [a_iea, a_exp] := by
    unfold filter_obsolete
    simp [hoe, hoi]
  have hstep_e : go_sel_step priority_list [] a_exp = [(a_exp.go_id, a_exp)] := by
    unfold go_sel_step
    rw [hce, hpe]
    rfl
  have hstep_i : go_sel_step priority_list [] a_iea = [(a_iea.go_id, a_iea)] := by
    unfold go_sel_step
    rw [hci, hpi]
    rfl
  have hlook_e : lookupAssoc [(a_exp.go_id, a_exp)] a_iea.go_id = some a_exp := by
    unfold lookupAssoc
    rw [hterm, if_pos rfl]
  have hlook_i : lookupAssoc [(a_iea.go_id, a_iea)] a_exp.go_id = some a_iea := by
    unfold lookupAssoc
    rw [hterm, if_pos rfl]
  have hstep2_e : go_sel_step priority_list [(a_exp.go_id, a_exp)] a_iea =
      [(a_exp.go_id, a_exp)] := by
    unfold go_sel_step
    rw [hci, hpi]
    dsimp only
    rw [hlook_e]
    dsimp only
    rw [hce, hpe]
    dsimp only
    rw [if_neg (by omega)]
  have hstep2_i : go_sel_step priority_list [(a_iea.go_id, a_iea)] a_exp =
      [(a_iea.go_id, a_exp)] := by
    unfold go_sel_step
    rw [hce, hpe]
    dsimp only
    rw [hlook_i]
    dsimp only
    rw [hci, hpi]
    dsimp only
    rw [if_pos (by omega)]
    show selUpdate [(a_iea.go_id, a_iea)] a_exp.go_id a_exp = _
    unfold selUpdate
    rw [if_pos hterm]
  refine ⟨⟨?_, ?_⟩, ?_, ?_⟩
  · unfold get_go_annotations
    rw [hfe]
    rw [show ([a_exp, a_iea] : List GOAnnot).foldl (go_sel_step priority_list) [] =
      go_sel_step priority_list (go_sel_step priority_list [] a_exp) a_iea from rfl]
    rw [hstep_e, hstep2_e]
    rfl
  · unfold get_go_annotations
    rw [hfi]
    rw [show ([a_iea, a_exp] : List GOAnnot).foldl (go_sel_step priority_list) [] =
      go_sel_step priority_list (go_sel_step priority_list [] a_iea) a_exp from rfl]
    rw [hstep_i, hstep2_i]
    rfl
  · intro l hnd hne
    have hlen : l.length - 1 < l.length := by
      cases l with
      | nil => exact absurd rfl hne
      | cons a t => simp
    have hg := priority_rank_get l hnd (l.length - 1) hlen
    have hlast : l.getLast hne = l.get ⟨l.length - 1, hlen⟩ := List.getLast_eq_get l hne
    rw [hlast, hg]
    have : l.length - 1 - (l.length - 1) = 0 := by omega
    rw [this]
  · intro l hnd i j hi hj hij
    exact ⟨l.length - 1 - i, l.length - 1 - j, priority_rank_get l hnd i hi,
      priority_rank_get l hnd j hj, by omega⟩

theorem go_priority_selection_witness :
    get_go_annotations
      [⟨"GO:7", "", "", "EXP", "F", "", "n", false⟩,
       ⟨"GO:7", "", "", "IEA", "F", "", "n", false⟩] false ["EXP", "IEA"] =
      [⟨"GO:7", "", "", "EXP", "F", "", "n", false⟩] ∧
    get_go_annotations
      [⟨"GO:7", "", "", "IEA", "F", "", "n", false⟩,
       ⟨"GO:7", "", "", "EXP", "F", "", "n", false⟩] false ["EXP", "IEA"] =
      [⟨"GO:7", "", "", "EXP", "F", "", "n", false⟩] :=
  (go_priority_selection ["EXP", "IEA"] 1 0 (by decide) (by decide) (by decide)
    ⟨"GO:7", "", "", "EXP", "F", "", "n", false⟩
    ⟨"GO:7", "", "", "IEA", "F", "", "n", false⟩
    (by decide) (by decide) (by decide) (by decide) (by decide) false).1

end GeneDesc
